import Mathlib

/-!
A shallow embedding of `src/mymuesli_analyzer.py` (the mymuesli-analyzer
repository) in Lean 4, together with theorems settling the specification
claims about it.

Conventions used throughout:
* Python floats are modelled as exact rationals (`ℚ`); float division is
  `pyDiv`, which returns `none` exactly when Python raises
  `ZeroDivisionError` (division of floats/ints by zero raises in Python,
  it does not produce NaN).
* Fallible Python code (code that can raise) is modelled with `Option`:
  `none` means the corresponding Python expression raises.
* Python `sorted(..., key=...)` is a stable sort by key; it is modelled
  with Mathlib's stable `List.insertionSort` applied to the key relation.
* Python dictionaries that the code only builds and reads pointwise are
  modelled as association lists (`List (key × value)`).
-/

namespace Mymuesli

/-- Python float/int division `a / b`: `none` models `ZeroDivisionError`
when `b = 0`; otherwise exact rational division. -/
def pyDiv (a b : ℚ) : Option ℚ := if b = 0 then none else some (a / b)

/-- Python `str.strip()` on a character list: drop whitespace from both ends. -/
def trimList (l : List Char) : List Char :=
  ((l.dropWhile Char.isWhitespace).reverse.dropWhile Char.isWhitespace).reverse

/-- Fuel-driven worker for `replaceList`. The fuel starts at the length of
the list and every step consumes at least one character, so the `0` case is
never reached for a nonempty pattern. -/
def replaceListAux (pat repl : List Char) : Nat → List Char → List Char
  | _, [] => []
  | 0, l => l
  | fuel + 1, c :: cs =>
    if pat.isEmpty then c :: cs
    else if pat.isPrefixOf (c :: cs) then
      repl ++ replaceListAux pat repl fuel ((c :: cs).drop pat.length)
    else c :: replaceListAux pat repl fuel cs

/-- Python `str.replace(pat, repl)`: replace every non-overlapping occurrence
of `pat`, scanning left to right (for the nonempty patterns used by the code). -/
def replaceList (pat repl l : List Char) : List Char := replaceListAux pat repl l.length l

/-- Numeric value of a digit string, most significant digit first. -/
def digitsToNat (l : List Char) : Nat := l.foldl (fun acc c => 10 * acc + (c.toNat - 48)) 0

/-- Python `float(...)` on an unsigned plain decimal numeral: digits with an
optional single decimal point, at least one digit overall (`"3."` and `".5"`
are valid Python float literals, `""` and `"abc"` are not). -/
def pythonFloatCore (cs : List Char) : Option ℚ :=
  let ip := cs.takeWhile Char.isDigit
  match cs.dropWhile Char.isDigit with
  | [] => if ip.isEmpty then none else some (digitsToNat ip)
  | '.' :: fp =>
    if fp.all Char.isDigit && !(ip.isEmpty && fp.isEmpty) then
      some ((digitsToNat ip : ℚ) + (digitsToNat fp : ℚ) / (10 : ℚ) ^ fp.length)
    else none
  | _ => none

/-- Python `float(s)` on a string: strips surrounding whitespace, optional
sign, then a plain decimal numeral; `none` models `ValueError`. (Exponents,
digit underscores and inf/nan are outside the subset this program feeds in.) -/
def pythonFloat (s : String) : Option ℚ :=
  match trimList s.toList with
  | '-' :: cs => (pythonFloatCore cs).map (fun q => -q)
  | '+' :: cs => pythonFloatCore cs
  | cs => pythonFloatCore cs

/-- Python substring test `sub in s` (contiguous substring). -/
def listContainsSub (sub : List Char) : List Char → Bool
  | [] => sub.isEmpty
  | c :: cs => sub.isPrefixOf (c :: cs) || listContainsSub sub cs

/-- Python `sub in s` for strings. -/
def strContainsSub (s sub : String) : Bool := listContainsSub sub.toList s.toList

def MYMUESLI_ANALYZER_BASE_URL : String := "https://www.mymuesli.com"

/-- The `priceQuotation` transform from `Offer.from_dict` (line 112):
`float(raw.replace(' €/100g', '').replace(',', '.').strip())`. -/
def parsePriceQuotation (raw : String) : Option ℚ :=
  pythonFloat (String.mk (trimList (replaceList ",".toList ".".toList
    (replaceList " €/100g".toList [] raw.toList))))

/-- The `Offer` entity (attributes set by `Offer.__init__`, lines 115-124). -/
structure Offer where
  offer_id : Nat
  name : String
  availability : Bool
  availability_for_hotspot : Bool
  price : ℚ
  original_price : ℚ
  discount_percentage : ℚ
  price_per_100g : ℚ
  description : String
deriving DecidableEq

/-- A raw pricing-feed record as consumed by `Offer.from_dict` and by the
driver's article-number match. `priceMarketing` is `null` or a string in the
feed, hence `Option String`; the two availability fields arrive already
boolean (`bool(...)` on them is the identity). -/
structure OfferDict where
  id : Nat
  name : String
  availability : Bool
  availableForHotspot : Bool
  price : ℚ
  priceMarketing : Option String
  priceQuotation : String
  description : String
  productArticleNumber : String
deriving DecidableEq

/-- `Offer.__init__` (lines 115-124). Line 122 computes
`(original_price - price) / original_price` with no guard: a zero
`original_price` raises `ZeroDivisionError`, hence the `Option`. -/
def offerInit (offer_id : Nat) (name : String) (availability availability_for_hotspot : Bool)
    (price original_price price_per_100g : ℚ) (description : String) : Option Offer :=
  (pyDiv (original_price - price) original_price).map fun d =>
    { offer_id := offer_id, name := name, availability := availability,
      availability_for_hotspot := availability_for_hotspot, price := price,
      original_price := original_price, discount_percentage := d,
      price_per_100g := price_per_100g, description := description }

/-- `Offer.from_dict` (lines 104-113). `priceMarketing` falls back to `price`
when falsy (`null` or the empty string); otherwise it is fed to `float(...)`.
The `priceQuotation` string is parsed by `parsePriceQuotation`. -/
def offerFromDict (d : OfferDict) : Option Offer := do
  let original_price ←
    match d.priceMarketing with
    | some s => if s = "" then some d.price else pythonFloat s
    | none => some d.price
  let price_per_100g ← parsePriceQuotation d.priceQuotation
  offerInit d.id d.name d.availability d.availableForHotspot d.price original_price
    price_per_100g d.description

/-- The `Ingredient` entity (attributes set by `Ingredient.__init__`,
lines 43-50). -/
structure Ingredient where
  ingredient_id : String
  name : String
  subtitle : Option String
  ingredient_type : String
  hints : List String
  description : Option String
  sub_ingredients : List String
deriving DecidableEq

/-- One element of `product_dict['ingredients']` as read on lines 157-161. -/
structure IngredientRef where
  id : String
  amount : ℚ
  amountMilligram : Nat
deriving DecidableEq

/-- One element of `ReadyMix.ingredients`: the dict literal built on
lines 157-161. -/
structure IngredientEntry where
  ingredient : Ingredient
  amount : ℚ
  grams : Nat
deriving DecidableEq

/-- The dict literal of lines 158-160: `grams = int(amountMilligram / 1000)`;
`int(...)` truncates toward zero, which on the nonnegative milligram counts is
floor, i.e. `Nat` division. `resolve` is `IngredientDict()[...]` as a pure
resolution oracle. -/
def entryOfRef (resolve : String → Ingredient) (r : IngredientRef) : IngredientEntry :=
  ⟨resolve r.id, r.amount, r.amountMilligram / 1000⟩

/-- The key relation of the sort on line 161: descending by `grams`
(`reverse=True` over an ascending key comparison). -/
def gramsDescending (a b : IngredientEntry) : Prop := b.grams ≤ a.grams

instance : DecidableRel gramsDescending := fun a b => Nat.decLe b.grams a.grams

instance : IsTotal IngredientEntry gramsDescending := ⟨fun a b => le_total b.grams a.grams⟩

instance : IsTrans IngredientEntry gramsDescending := ⟨fun _ _ _ hab hbc => le_trans hbc hab⟩

/-- Lines 157-161: build one entry per ingredient reference, then Python's
`sorted(..., key=lambda i: i['grams'], reverse=True)` — a stable sort,
modelled by the stable `List.insertionSort`. -/
def buildIngredients (resolve : String → Ingredient) (refs : List IngredientRef) :
    List IngredientEntry :=
  List.insertionSort gramsDescending (refs.map (entryOfRef resolve))

/-- The grouping key of lines 162-163: `i['ingredient'].ingredient_type`. -/
def entryType (i : IngredientEntry) : String := i.ingredient.ingredient_type

/-- The key relation of `sorted(self.ingredients, key=lambda i: i['ingredient']
.ingredient_type)` on line 163. -/
def typeAscending (a b : IngredientEntry) : Prop := entryType a ≤ entryType b

instance : DecidableRel typeAscending :=
  fun a b => inferInstanceAs (Decidable (entryType a ≤ entryType b))

instance : IsTotal IngredientEntry typeAscending := ⟨fun a b => le_total (entryType a) (entryType b)⟩

instance : IsTrans IngredientEntry typeAscending := ⟨fun _ _ _ hab hbc => le_trans hab hbc⟩

/-- `itertools.groupby(iterable, key=...)` (line 163): groups consecutive
elements whose keys are equal, yielding (key, group) pairs in order. -/
def groupby {α κ : Type} [DecidableEq κ] (key : α → κ) : List α → List (κ × List α)
  | [] => []
  | x :: xs =>
    match groupby key xs with
    | [] => [(key x, [x])]
    | (k, g) :: rest =>
      if key x = k then (k, x :: g) :: rest else (key x, [x]) :: (k, g) :: rest

/-- `sum(i['grams'] for i in l)`. -/
def gramsTotal (l : List IngredientEntry) : Nat := (l.map (fun i => i.grams)).sum

/-- Evaluate a fallible Python comprehension body over a list: the first
raised exception (`none`) aborts the whole comprehension. -/
def optionMapList {α β : Type} (f : α → Option β) : List α → Option (List β)
  | [] => some []
  | a :: as => do
    let b ← f a
    let bs ← optionMapList f as
    some (b :: bs)

/-- `ingredient_type_distribution` (lines 162-163): sort the ingredient list by
ingredient type, group consecutively by type, and map each group key to the
group's grams divided by the total grams of all ingredients. Each dict entry
evaluates one Python float division, so a zero total with at least one group
raises `ZeroDivisionError` (`none`); with no ingredients there is no group and
no division, giving the empty dict. -/
def ingredientTypeDistribution (ings : List IngredientEntry) : Option (List (String × ℚ)) :=
  optionMapList (fun g =>
      (pyDiv (gramsTotal g.2 : ℚ) (gramsTotal ings : ℚ)).map fun q => (g.1, q))
    (groupby entryType (List.insertionSort typeAscending ings))

/-- The key relation of the sort on line 167: ascending by `price`. -/
def priceAscending (a b : Offer) : Prop := a.price ≤ b.price

instance : DecidableRel priceAscending :=
  fun a b => inferInstanceAs (Decidable (a.price ≤ b.price))

instance : IsTotal Offer priceAscending := ⟨fun a b => le_total a.price b.price⟩

instance : IsTrans Offer priceAscending := ⟨fun _ _ _ hab hbc => le_trans hab hbc⟩

/-- Line 167: `sorted([Offer.from_dict(od) for od in offer_dicts],
key=lambda offer: offer.price)`; any parse fault aborts the comprehension. -/
def buildOffers (offer_dicts : List OfferDict) : Option (List Offer) :=
  (offer_dicts.mapM offerFromDict).map (List.insertionSort priceAscending)

/-- The predicate of line 168: `f"{self.grams}g" in o.name`. -/
def nameHasWeight (weight : Nat) (o : Offer) : Bool :=
  strContainsSub o.name (toString weight ++ "g")

/-- Line 168: `next(filter(lambda o: f"{self.grams}g" in o.name, self.offers),
None)` — the head of the filtered sorted offers, if any. -/
def singleOffer (weight : Nat) (offers : List Offer) : Option Offer :=
  (offers.filter (nameHasWeight weight)).head?

/-- A search-feed record as consumed on lines 170-171 and 188. `filter` is a
string-keyed dict, modelled as an association list. -/
structure SearchDict where
  id : Nat
  type : String
  brandKey : String
  filter : List (String × String)
  popularity : ℚ
deriving DecidableEq

/-- A catalog-feed (products) record as consumed on lines 152-171 and 191-193. -/
structure ProductDict where
  id : Nat
  name : String
  url : String
  category : Nat
  type : String
  ingredients : List IngredientRef
  nutrition : String
  flavour : String
  weight : Nat
  likes : Nat
  articleNumber : String
deriving DecidableEq

/-- The `ReadyMix` aggregate (attributes set by `ReadyMix.__init__`,
lines 152-171). -/
structure ReadyMix where
  name : String
  url : String
  category : Nat
  product_type : String
  ingredients : List IngredientEntry
  ingredient_type_distribution : List (String × ℚ)
  nutrition : String
  flavour : String
  grams : Nat
  offers : List Offer
  single_offer : Option Offer
  likes : Nat
  popularity : ℚ
  filters : List (List String)
deriving DecidableEq

/-- `ReadyMix.__init__` (lines 152-171), with ingredient resolution as a pure
oracle `resolve` (its stateful cache is modelled separately by `getitem`).
`none` models a raised exception (zero-total-grams division or a bad offer
record). -/
def readyMixInit (resolve : String → Ingredient) (product_dict : ProductDict)
    (search_dict : SearchDict) (offer_dicts : List OfferDict) : Option ReadyMix := do
  let ingredients := buildIngredients resolve product_dict.ingredients
  let dist ← ingredientTypeDistribution ingredients
  let offers ← buildOffers offer_dicts
  some { name := product_dict.name,
         url := MYMUESLI_ANALYZER_BASE_URL ++ product_dict.url,
         category := product_dict.category,
         product_type := product_dict.type,
         ingredients := ingredients,
         ingredient_type_distribution := dist,
         nutrition := product_dict.nutrition,
         flavour := product_dict.flavour,
         grams := product_dict.weight,
         offers := offers,
         single_offer := singleOffer product_dict.weight offers,
         likes := product_dict.likes,
         popularity := search_dict.popularity,
         filters := [search_dict.filter.map Prod.snd] }

/-- The three feeds fetched on lines 184-186. -/
structure Feeds where
  products : List ProductDict
  search : List SearchDict
  offers : List OfferDict
deriving DecidableEq

/-- The search-feed filter of line 188; `'is-ready-mix' in sr['filter']` is a
key-membership test on the filter dict. -/
def isReadyMixSearchItem (sr : SearchDict) : Bool :=
  sr.type == "product" && sr.brandKey == "mymuesli" && (sr.filter.lookup "is-ready-mix").isSome

/-- The loop of `get_all_ready_mixes` (lines 190-193): process the surviving
search items in order, appending each assembled ReadyMix to the class-level
list. `next(filter(...))` with no matching product raises `StopIteration`, and
assembly faults propagate; either way the appends already made stay in place,
so the result is the final list content paired with `true` iff no exception
was raised. -/
def runAssembly (resolve : String → Ingredient) (feeds : Feeds) :
    List SearchDict → List ReadyMix → List ReadyMix × Bool
  | [], acc => (acc, true)
  | sr :: rest, acc =>
    match feeds.products.find? (fun p => p.id == sr.id) with
    | none => (acc, false)
    | some pd =>
      match readyMixInit resolve pd sr
          (feeds.offers.filter (fun od => od.productArticleNumber == pd.articleNumber)) with
      | none => (acc, false)
      | some rm => runAssembly resolve feeds rest (acc ++ [rm])

/-- `ReadyMixList.get_all_ready_mixes` (lines 182-193), from the state of the
class-level list `all_elements`. -/
def getAllReadyMixes (resolve : String → Ingredient) (feeds : Feeds)
    (all_elements : List ReadyMix) : List ReadyMix × Bool :=
  runAssembly resolve feeds (feeds.search.filter isReadyMixSearchItem) all_elements

/-- Reference function for the error-free runs of `runAssembly`: assemble every
item, or `none` if any item fails. -/
def assembleSeq (resolve : String → Ingredient) (feeds : Feeds) :
    List SearchDict → Option (List ReadyMix)
  | [] => some []
  | sr :: rest => do
    let pd ← feeds.products.find? (fun p => p.id == sr.id)
    let rm ← readyMixInit resolve pd sr
      (feeds.offers.filter (fun od => od.productArticleNumber == pd.articleNumber))
    let rms ← assembleSeq resolve feeds rest
    some (rm :: rms)

/-- `ReadyMixList.__new__` (lines 195-199) at the value level: takes the state
of `cls.all_elements`, returns ((new list content, no exception raised),
number of feed-fetch rounds performed — 1 when `get_all_ready_mixes` ran its
three `requests.get` calls, else 0). -/
def readyMixListNew (resolve : String → Ingredient) (feeds : Feeds)
    (all_elements : List ReadyMix) : (List ReadyMix × Bool) × Nat :=
  if all_elements.length = 0 then (getAllReadyMixes resolve feeds all_elements, 1)
  else ((all_elements, true), 0)

/-- State of `IngredientDict`: the process-wide in-memory tier
`IngredientDict.store` and the on-disk cache directory. A `disk` entry
`(id, r)` models "the cache file for `id` exists, has size > 0 and decodes to
`r`" (the `json.dump`/`json.load` pair round-trips the attribute dict); an
absent entry models a missing or zero-length file. -/
structure CacheState where
  mem : List (String × Ingredient)
  disk : List (String × Ingredient)

/-- `IngredientDict.__getitem__` (lines 67-85), with `Ingredient.from_web` as
the pure fetch oracle `web`. The returned `Nat` counts fetch-from-source
calls (0 or 1). In the fetch branch the disk write (lines 82-83) happens
before the method returns. -/
def getitem (web : String → Ingredient) (s : CacheState) (ingredient_id : String) :
    Ingredient × CacheState × Nat :=
  match s.disk.lookup ingredient_id with
  | some cached =>
    match s.mem.lookup ingredient_id with
    | some ing => (ing, s, 0)
    | none => (cached, { s with mem := (ingredient_id, cached) :: s.mem }, 0)
  | none =>
    match s.mem.lookup ingredient_id with
    | some ing => (ing, s, 0)
    | none =>
      let ing := web ingredient_id
      (ing, { mem := (ingredient_id, ing) :: s.mem,
              disk := (ingredient_id, ing) :: s.disk }, 1)

/-- The address of the class attribute `ReadyMixList.all_elements` in the
reference-level model: a single process-wide cell. -/
def readyMixListClassAddr : Nat := 0

/-- A tiny heap for the reference-level model of `ReadyMixList.__new__`:
list-valued cells addressed by `Nat`, plus a fresh-address counter (all
addresses `≥ fresh` are unallocated; allocating a new object would return
`fresh` and bump it). -/
structure PyHeap where
  heap : Nat → List ReadyMix
  fresh : Nat

/-- Mutate the list object at address `a`. -/
def heapWrite (s : PyHeap) (a : Nat) (v : List ReadyMix) : PyHeap :=
  { s with heap := fun b => if b = a then v else s.heap b }

/-- `ReadyMixList.__new__` (lines 195-199) at the reference level: it returns
`cls.all_elements` — the class-level list object itself — so the result is
always the class address; it never allocates (no `ReadyMixList` instance, no
copy: `fresh` is untouched), and when the list is empty the fetched elements
are written in place through that same address. -/
def readyMixListNewRef (resolve : String → Ingredient) (feeds : Feeds) (s : PyHeap) :
    Nat × PyHeap :=
  if (s.heap readyMixListClassAddr).length = 0 then
    (readyMixListClassAddr,
      heapWrite s readyMixListClassAddr
        (getAllReadyMixes resolve feeds (s.heap readyMixListClassAddr)).1)
  else (readyMixListClassAddr, s)

/-! Concrete records used by the witnesses and counterexamples below. -/

/-- A concrete resolved ingredient. -/
def sampleIngredient : Ingredient := ⟨"x", "Haferflocken", none, "Flocken", [], none, []⟩

/-- A resolution oracle returning the same ingredient for every id. -/
def resolve0 : String → Ingredient := fun _ => sampleIngredient

/-- A resolution oracle with two ingredient types. -/
def resolveTwoTypes : String → Ingredient := fun i =>
  if i = "a" then ⟨"a", "Haferflocken", none, "Flocken", [], none, []⟩
  else ⟨"b", "Mandeln", none, "Paleo", [], none, []⟩

/-- Feeds whose search feed contains no ready-mix items: a run over them
completes without an exception and appends zero ReadyMixes. -/
def feedsEmptySearch : Feeds := ⟨[], [], []⟩

/-- A catalog record with one 250 g ingredient, weight 500 g, article "A1". -/
def productA : ProductDict :=
  ⟨1, "Muesli A", "/produkt/a", 181, "muesli", [⟨"x", 1, 250000⟩], "nut", "fruchtig", 500, 10, "A1"⟩

/-- A search record matching `productA`. -/
def searchA : SearchDict := ⟨1, "product", "mymuesli", [("is-ready-mix", "x")], 5⟩

/-- A ready-mix search record with no catalog counterpart (id 2). -/
def searchOrphan : SearchDict := ⟨2, "product", "mymuesli", [("is-ready-mix", "x")], 4⟩

/-- A pricing record for article "A1" whose name holds the 500g weight marker. -/
def offerA : OfferDict := ⟨11, "Muesli A 500g", true, true, 7, none, "1 €/100g", "", "A1"⟩

/-- Feeds where the first ready-mix search item assembles successfully and the
second has no catalog counterpart, so the run raises `StopIteration` midway. -/
def feedsOrphan : Feeds := ⟨[productA], [searchA, searchOrphan], [offerA]⟩

/-- A concrete ReadyMix value, for exercising the nonempty-collection branch. -/
def sampleReadyMix : ReadyMix :=
  ⟨"M", "https://www.mymuesli.com/m", 181, "muesli", [], [], "nut", "f", 500, [], none, 0, 0, [[]]⟩

/-- Ingredient references truncating to 50 g, 50 g and 30 g. -/
def refs530 : List IngredientRef := [⟨"a", 1, 50000⟩, ⟨"b", 2, 50999⟩, ⟨"c", 3, 30000⟩]

/-- Ingredient references with two distinct ingredient types and positive
total grams. -/
def refsTwoTypes : List IngredientRef := [⟨"a", 1, 50000⟩, ⟨"b", 1, 30000⟩]

/-!  Theorems.  -/

/-- C1 (code_bug evidence): `Offer.__init__` does not define the discount as 0
when the original price is 0 — line 122 divides by `original_price` unguarded,
so Python raises `ZeroDivisionError` (modelled: `offerInit` returns `none`),
reachable from `Offer.from_dict` via a `priceMarketing` of `"0"`. When the
original price `o` is nonzero the discount fraction is `(o - p) / o`, e.g.
original 10, current 8 gives 1/5 = 0.2. -/
theorem c1_zero_original_price_raises :
    offerInit 1 "A" true true 8 0 (349/100) "" = none ∧
    offerFromDict ⟨1, "A", true, true, 8, some "0", "1 €/100g", "", "A1"⟩ = none ∧
    (offerInit 1 "A" true true 8 10 (349/100) "").map (fun o => o.discount_percentage)
      = some (1/5) := by
  refine ⟨by decide, by decide, ?_⟩
  norm_num [offerInit, pyDiv]

/-- C2 (code_bug evidence): a ReadyMix ingredient list that is nonempty but sums
to 0 grams (one 500 mg ingredient truncates to 0 g) makes line 162 divide by a
zero total, raising `ZeroDivisionError` (modelled: `none`) instead of producing
a well-defined default distribution; only the empty ingredient list yields the
empty distribution without a fault. -/
theorem c2_zero_total_grams_raises :
    ingredientTypeDistribution (buildIngredients resolve0 [⟨"x", 1, 500⟩]) = none ∧
    gramsTotal (buildIngredients resolve0 [⟨"x", 1, 500⟩]) = 0 ∧
    ingredientTypeDistribution [] = some [] := by
  refine ⟨by decide, by decide, rfl⟩

/-- C3 counterexample: the claim says every raw string not matching the shape
"X,XX €/100g" — for instance one missing the unit suffix — fails with a
ParseError; but `"3,49"` (no unit suffix) parses successfully to 3.49, because
`str.replace` leaves a string without the suffix unchanged and `float("3.49")`
succeeds. -/
theorem c3_missing_suffix_parses :
    parsePriceQuotation "3,49" = some (349/100) ∧ parsePriceQuotation "3,49" ≠ none := by
  have h : parsePriceQuotation "3,49"
      = some ((3 : ℚ) + (49 : ℚ) / 10 ^ (2 : Nat)) := rfl
  rw [h]
  constructor
  · norm_num
  · simp

/-- A character in `0123456789` differs from every non-digit character. -/
theorem isDigit_ne (c d : Char) (h : c.isDigit = true) (hd : d.isDigit = false) : c ≠ d := by
  intro he
  rw [he, hd] at h
  cases h

/-- Digit characters are not whitespace. -/
theorem isWhitespace_eq_false_of_isDigit (c : Char) (h : c.isDigit = true) :
    c.isWhitespace = false := by
  have h1 : c ≠ ' ' := isDigit_ne c ' ' h (by decide)
  have h2 : c ≠ '\t' := isDigit_ne c '\t' h (by decide)
  have h3 : c ≠ '\r' := isDigit_ne c '\r' h (by decide)
  have h4 : c ≠ '\n' := isDigit_ne c '\n' h (by decide)
  simp [Char.isWhitespace, h1, h2, h3, h4]

/-- The replacement scan steps over a character that cannot start the pattern. -/
theorem replaceListAux_cons_ne (ph : Char) (pt repl : List Char) (c : Char)
    (l : List Char) (fuel : Nat) (hc : c ≠ ph) :
    replaceListAux (ph :: pt) repl (fuel + 1) (c :: l)
      = c :: replaceListAux (ph :: pt) repl fuel l := by
  have hb : (ph == c) = false := beq_eq_false_iff_ne.mpr (Ne.symm hc)
  simp [replaceListAux, List.isPrefixOf_cons₂, hb]

/-- The replacement scan passes unchanged over any block free of the
pattern's first character. -/
theorem replaceListAux_append (ph : Char) (pt repl : List Char) (xs : List Char) :
    ∀ (fuel : Nat) (ys : List Char), (∀ c ∈ xs, c ≠ ph) →
      replaceListAux (ph :: pt) repl (xs.length + fuel) (xs ++ ys)
        = xs ++ replaceListAux (ph :: pt) repl fuel ys := by
  induction xs with
  | nil =>
    intro fuel ys _
    simp
  | cons c cs ih =>
    intro fuel ys h
    rw [show (c :: cs).length + fuel = (cs.length + fuel) + 1 by simp [Nat.add_right_comm],
      List.cons_append,
      replaceListAux_cons_ne ph pt repl c (cs ++ ys) (cs.length + fuel) (h c (by simp)),
      ih fuel ys (fun d hd => h d (by simp [hd])),
      List.cons_append]

/-- The replacement scan of an empty list is empty at any fuel. -/
theorem replaceListAux_nil_list (pat repl : List Char) (fuel : Nat) :
    replaceListAux pat repl fuel [] = [] := by
  cases fuel <;> rfl

/-- Dropping the leading whitespace of an all-non-whitespace list is the
identity. -/
theorem dropWhile_eq_self_of_forall (p : Char → Bool) (l : List Char)
    (h : ∀ c ∈ l, p c = false) : l.dropWhile p = l := by
  cases l with
  | nil => rfl
  | cons c t => simp [List.dropWhile_cons, h c (by simp)]

/-- Stripping an all-non-whitespace list is the identity. -/
theorem trimList_eq_self (l : List Char) (h : ∀ c ∈ l, c.isWhitespace = false) :
    trimList l = l := by
  unfold trimList
  rw [dropWhile_eq_self_of_forall _ _ h,
    dropWhile_eq_self_of_forall _ _ (fun c hc => h c (List.mem_reverse.mp hc)),
    List.reverse_reverse]

/-- Stripping the unit suffix: on a body with no space character,
`replace(' €/100g', '')` removes exactly the trailing suffix. -/
theorem replaceList_strip_suffix (ds : List Char) (h : ∀ c ∈ ds, c ≠ ' ') :
    replaceList " €/100g".toList [] (ds ++ " €/100g".toList) = ds := by
  unfold replaceList
  have hlen : (ds ++ " €/100g".toList).length = ds.length + 7 := by
    rw [List.length_append]
    rfl
  rw [hlen, show " €/100g".toList = ' ' :: "€/100g".toList from rfl,
    replaceListAux_append ' ' "€/100g".toList [] ds 7 (' ' :: "€/100g".toList) h,
    show replaceListAux (' ' :: "€/100g".toList) [] 7 (' ' :: "€/100g".toList) = []
      from rfl,
    List.append_nil]

/-- Replacing the decimal comma: on comma-free surroundings,
`replace(',', '.')` turns the one comma into a dot. -/
theorem replaceList_comma (ds₁ ds₂ : List Char) (h₁ : ∀ c ∈ ds₁, c ≠ ',')
    (h₂ : ∀ c ∈ ds₂, c ≠ ',') :
    replaceList [','] ['.'] (ds₁ ++ ',' :: ds₂) = ds₁ ++ '.' :: ds₂ := by
  unfold replaceList
  have hlen : (ds₁ ++ ',' :: ds₂).length = ds₁.length + (ds₂.length + 1) := by
    simp [List.length_append]
  rw [hlen, replaceListAux_append ',' [] ['.'] ds₁ (ds₂.length + 1) (',' :: ds₂) h₁]
  congr 1
  have hstep : replaceListAux [','] ['.'] (ds₂.length + 1) (',' :: ds₂)
      = '.' :: replaceListAux [','] ['.'] ds₂.length ds₂ := by
    simp [replaceListAux, List.isPrefixOf_cons₂, List.isPrefixOf_nil_left]
  rw [hstep]
  have hpass : replaceListAux [','] ['.'] (ds₂.length + 0) (ds₂ ++ [])
      = ds₂ ++ replaceListAux [','] ['.'] 0 [] :=
    replaceListAux_append ',' [] ['.'] ds₂ 0 [] h₂
  rw [List.append_nil, Nat.add_zero, replaceListAux_nil_list, List.append_nil] at hpass
  rw [hpass]

/-- With an all-non-whitespace body headed by a digit, `float(...)` is the
plain-numeral conversion. -/
theorem pythonFloat_eq_core_of_digit_head (d : Char) (rest : List Char)
    (hd : d.isDigit = true) (hws : ∀ c ∈ d :: rest, c.isWhitespace = false) :
    pythonFloat (String.mk (d :: rest)) = pythonFloatCore (d :: rest) := by
  have hne1 : d ≠ '-' := isDigit_ne d '-' hd (by decide)
  have hne2 : d ≠ '+' := isDigit_ne d '+' hd (by decide)
  unfold pythonFloat
  rw [show (String.mk (d :: rest)).toList = d :: rest from rfl, trimList_eq_self _ hws]
  split
  · next cs heq =>
    injection heq with h1 _
    exact absurd h1 hne1
  · next cs heq =>
    injection heq with h1 _
    exact absurd h1 hne2
  · rfl

/-- The plain-numeral conversion of digits-dot-digits yields the decimal
value. -/
theorem pythonFloatCore_decimal (ds₁ ds₂ : List Char)
    (h₁ : ∀ c ∈ ds₁, c.isDigit = true) (h₂ : ∀ c ∈ ds₂, c.isDigit = true)
    (hn₁ : ds₁ ≠ []) :
    pythonFloatCore (ds₁ ++ '.' :: ds₂)
      = some ((digitsToNat ds₁ : ℚ) + (digitsToNat ds₂ : ℚ) / 10 ^ ds₂.length) := by
  have htake : (ds₁ ++ '.' :: ds₂).takeWhile Char.isDigit = ds₁ := by
    rw [List.takeWhile_append_of_pos h₁, List.takeWhile_cons]
    simp
  have hdrop : (ds₁ ++ '.' :: ds₂).dropWhile Char.isDigit = '.' :: ds₂ := by
    rw [List.dropWhile_append_of_pos h₁, List.dropWhile_cons]
    simp
  have hie : ds₁.isEmpty = false := by
    cases ds₁ with
    | nil => exact absurd rfl hn₁
    | cons a t => rfl
  unfold pythonFloatCore
  rw [htake, hdrop]
  simp [List.all_eq_true.mpr h₂, hie]

/-- Every quotation string of the shape "N,M €/100g" — N a nonempty run of
decimal digits, M a run of decimal digits — parses to N + M/10^|M|. -/
theorem parsePriceQuotation_decimal (ds₁ ds₂ : List Char)
    (h₁ : ∀ c ∈ ds₁, c.isDigit = true) (h₂ : ∀ c ∈ ds₂, c.isDigit = true)
    (hn₁ : ds₁ ≠ []) :
    parsePriceQuotation (String.mk ((ds₁ ++ ',' :: ds₂) ++ " €/100g".toList))
      = some ((digitsToNat ds₁ : ℚ) + (digitsToNat ds₂ : ℚ) / 10 ^ ds₂.length) := by
  have hsp : ∀ c ∈ ds₁ ++ ',' :: ds₂, c ≠ ' ' := by
    intro c hc
    rcases List.mem_append.mp hc with hc₁ | hc₂
    · exact isDigit_ne c ' ' (h₁ c hc₁) (by decide)
    · rcases List.mem_cons.mp hc₂ with rfl | hc₃
      · decide
      · exact isDigit_ne c ' ' (h₂ c hc₃) (by decide)
  have hcm₁ : ∀ c ∈ ds₁, c ≠ ',' := fun c hc => isDigit_ne c ',' (h₁ c hc) (by decide)
  have hcm₂ : ∀ c ∈ ds₂, c ≠ ',' := fun c hc => isDigit_ne c ',' (h₂ c hc) (by decide)
  have hws : ∀ c ∈ ds₁ ++ '.' :: ds₂, c.isWhitespace = false := by
    intro c hc
    rcases List.mem_append.mp hc with hc₁ | hc₂
    · exact isWhitespace_eq_false_of_isDigit c (h₁ c hc₁)
    · rcases List.mem_cons.mp hc₂ with rfl | hc₃
      · decide
      · exact isWhitespace_eq_false_of_isDigit c (h₂ c hc₃)
  unfold parsePriceQuotation
  rw [show (String.mk ((ds₁ ++ ',' :: ds₂) ++ " €/100g".toList)).toList
      = (ds₁ ++ ',' :: ds₂) ++ " €/100g".toList from rfl,
    show ",".toList = [','] from rfl, show ".".toList = ['.'] from rfl,
    replaceList_strip_suffix (ds₁ ++ ',' :: ds₂) hsp,
    replaceList_comma ds₁ ds₂ hcm₁ hcm₂,
    trimList_eq_self _ hws]
  cases ds₁ with
  | nil => exact absurd rfl hn₁
  | cons d ds₁' =>
    rw [List.cons_append,
      pythonFloat_eq_core_of_digit_head d (ds₁' ++ '.' :: ds₂) (h₁ d (by simp))
        (by rw [← List.cons_append]; exact hws),
      ← List.cons_append]
    exact pythonFloatCore_decimal (d :: ds₁') ds₂ h₁ h₂ (by simp)

/-- C3 (amended): the quotation parse validates no shape — it strips the
' €/100g' suffix, replaces the decimal comma with a dot, strips whitespace
and converts with float(). Hence every raw string "N,M €/100g" whose N and M
are runs of decimal digits (N nonempty) parses successfully to N + M/10^|M|
— in particular "3,49 €/100g" parses to 3.49 — and a raw string missing the
unit suffix, such as "3,49", also parses successfully (to 3.49) rather than
failing with a ParseError; a failure (Python ValueError, the ParseError this
code can raise) occurs on strings whose residue after that transform float()
rejects, e.g. "abc €/100g" and "3,49€/100g" (no space before the suffix). -/
theorem c3_parse_price_quotation :
    (∀ ds₁ ds₂ : List Char, (∀ c ∈ ds₁, c.isDigit = true) →
      (∀ c ∈ ds₂, c.isDigit = true) → ds₁ ≠ [] →
      parsePriceQuotation (String.mk ((ds₁ ++ ',' :: ds₂) ++ " €/100g".toList))
        = some ((digitsToNat ds₁ : ℚ) + (digitsToNat ds₂ : ℚ) / 10 ^ ds₂.length)) ∧
    parsePriceQuotation "3,49 €/100g" = some (349/100) ∧
    parsePriceQuotation "3,49" = some (349/100) ∧
    parsePriceQuotation "abc €/100g" = none ∧
    parsePriceQuotation "3,49€/100g" = none := by
  have h1 : parsePriceQuotation "3,49 €/100g"
      = some ((3 : ℚ) + (49 : ℚ) / 10 ^ (2 : Nat)) := rfl
  have h2 : parsePriceQuotation "3,49"
      = some ((3 : ℚ) + (49 : ℚ) / 10 ^ (2 : Nat)) := rfl
  exact ⟨parsePriceQuotation_decimal, by rw [h1]; norm_num, by rw [h2]; norm_num,
    by decide, by decide⟩

/-- C3 witness: the general success conjunct of the amended statement applied
at the digit lists of "3,49 €/100g", hypotheses discharged by computation. -/
theorem c3_parse_price_quotation_witness :
    parsePriceQuotation (String.mk (((['3'] : List Char) ++ ',' :: ['4', '9'])
        ++ " €/100g".toList))
      = some ((digitsToNat ['3'] : ℚ) + (digitsToNat ['4', '9'] : ℚ)
          / 10 ^ (['4', '9'] : List Char).length) :=
  c3_parse_price_quotation.1 ['3'] ['4', '9'] (by decide) (by decide) (by decide)

/-- C7 counterexample: after a run of `buildAll` that completed without error
but appended zero elements (search feed with no ready-mix items), a second
request does not return the cached result as a no-op: `__new__` tests
`len(cls.all_elements) == 0`, not "has a run completed", so it fetches the
three feeds again (fetch counter 1, not 0). -/
theorem c7_second_call_refetches_after_empty_run :
    (readyMixListNew resolve0 feedsEmptySearch []).1.2 = true ∧
    (readyMixListNew resolve0 feedsEmptySearch []).1.1 = [] ∧
    (readyMixListNew resolve0 feedsEmptySearch
      (readyMixListNew resolve0 feedsEmptySearch []).1.1).2 = 1 := by
  refine ⟨rfl, rfl, rfl⟩

/-- C7 (amended): a second request is a no-op — it returns the stored
collection unchanged, raises nothing, and performs no feed fetches — whenever
the stored collection is nonempty (in particular after any completed run that
produced at least one ReadyMix); a completed run that produced zero elements
does not stop the next request from re-fetching. -/
theorem c7_nonempty_collection_is_noop (resolve : String → Ingredient) (feeds : Feeds)
    (all_elements : List ReadyMix) (h : all_elements ≠ []) :
    readyMixListNew resolve feeds all_elements = ((all_elements, true), 0) := by
  unfold readyMixListNew
  rw [if_neg (by simpa [List.length_eq_zero] using h)]

/-- C7 witness: the amended no-op statement applied at a concrete nonempty
collection. -/
theorem c7_nonempty_collection_is_noop_witness :
    readyMixListNew resolve0 feedsEmptySearch [sampleReadyMix]
      = (([sampleReadyMix], true), 0) :=
  c7_nonempty_collection_is_noop resolve0 feedsEmptySearch [sampleReadyMix] (by simp)

/-- C10: every evaluation of the `ReadyMixList` constructor returns the one
process-wide class-level list object itself: the returned reference is always
the class-cell address, nothing fresh is allocated (the fresh-address counter
is untouched, so no new instance and no copy), two calls return the same
reference, and a mutation written through one returned reference is read back
through the other. -/
theorem c10_constructor_returns_class_list (resolve : String → Ingredient) (feeds : Feeds)
    (s : PyHeap) (v : List ReadyMix) :
    (readyMixListNewRef resolve feeds s).1 = readyMixListClassAddr ∧
    (readyMixListNewRef resolve feeds s).2.fresh = s.fresh ∧
    (readyMixListNewRef resolve feeds (readyMixListNewRef resolve feeds s).2).1
      = (readyMixListNewRef resolve feeds s).1 ∧
    (heapWrite (readyMixListNewRef resolve feeds s).2
        (readyMixListNewRef resolve feeds s).1 v).heap
      (readyMixListNewRef resolve feeds (readyMixListNewRef resolve feeds s).2).1 = v := by
  have haddr : ∀ t : PyHeap, (readyMixListNewRef resolve feeds t).1 = readyMixListClassAddr := by
    intro t
    unfold readyMixListNewRef
    split <;> rfl
  have hfresh : (readyMixListNewRef resolve feeds s).2.fresh = s.fresh := by
    unfold readyMixListNewRef
    split <;> rfl
  refine ⟨haddr s, hfresh, by rw [haddr, haddr], ?_⟩
  rw [haddr, haddr, heapWrite]
  simp

/-- C10 witness: the aliasing statement applied at a concrete heap. -/
theorem c10_constructor_returns_class_list_witness :
    (readyMixListNewRef resolve0 feedsEmptySearch ⟨fun _ => [], 1⟩).1 = readyMixListClassAddr ∧
    (readyMixListNewRef resolve0 feedsEmptySearch ⟨fun _ => [], 1⟩).2.fresh = (1 : Nat) ∧
    (readyMixListNewRef resolve0 feedsEmptySearch
        (readyMixListNewRef resolve0 feedsEmptySearch ⟨fun _ => [], 1⟩).2).1
      = (readyMixListNewRef resolve0 feedsEmptySearch ⟨fun _ => [], 1⟩).1 ∧
    (heapWrite (readyMixListNewRef resolve0 feedsEmptySearch ⟨fun _ => [], 1⟩).2
        (readyMixListNewRef resolve0 feedsEmptySearch ⟨fun _ => [], 1⟩).1 [sampleReadyMix]).heap
      (readyMixListNewRef resolve0 feedsEmptySearch
        (readyMixListNewRef resolve0 feedsEmptySearch ⟨fun _ => [], 1⟩).2).1 = [sampleReadyMix] :=
  c10_constructor_returns_class_list resolve0 feedsEmptySearch ⟨fun _ => [], 1⟩ [sampleReadyMix]

/-- C6: resolving an ingredient id twice within one process run performs at
most one fetch-from-source, the two returned records are equal (the same
record value, hence attribute-for-attribute equal), and every completed
resolution leaves a nonempty on-disk cache record for that id — the fetch
branch writes the cache file before returning. The hypothesis is the store
invariant that every in-memory entry already has a nonempty disk record; it
holds for a fresh process (empty in-memory store) and the final conjunct shows
`__getitem__` preserves it. -/
theorem c6_resolve_twice_one_fetch (web : String → Ingredient) (s : CacheState)
    (ingredient_id : String)
    (hinv : ∀ i r, s.mem.lookup i = some r → s.disk.lookup i ≠ none) :
    (getitem web s ingredient_id).2.2
        + (getitem web (getitem web s ingredient_id).2.1 ingredient_id).2.2 ≤ 1 ∧
    (getitem web (getitem web s ingredient_id).2.1 ingredient_id).1
        = (getitem web s ingredient_id).1 ∧
    (getitem web s ingredient_id).2.1.disk.lookup ingredient_id ≠ none ∧
    (∀ i r, (getitem web s ingredient_id).2.1.mem.lookup i = some r →
      (getitem web s ingredient_id).2.1.disk.lookup i ≠ none) := by
  cases hd : s.disk.lookup ingredient_id with
  | some cached =>
    cases hm : s.mem.lookup ingredient_id with
    | some ing =>
      have h1 : getitem web s ingredient_id = (ing, s, 0) := by simp [getitem, hd, hm]
      refine ⟨by simp [h1], by simp [h1], by simp [h1, hd], ?_⟩
      simpa [h1] using hinv
    | none =>
      have h1 : getitem web s ingredient_id
          = (cached, ⟨(ingredient_id, cached) :: s.mem, s.disk⟩, 0) := by
        simp [getitem, hd, hm]
      have h2 : getitem web ⟨(ingredient_id, cached) :: s.mem, s.disk⟩ ingredient_id
          = (cached, ⟨(ingredient_id, cached) :: s.mem, s.disk⟩, 0) := by
        simp [getitem, hd]
      refine ⟨by simp [h1, h2], by simp [h1, h2], by simp [h1, hd], ?_⟩
      intro i r hir
      simp only [h1] at hir ⊢
      by_cases hi : i = ingredient_id
      · subst hi
        simp [hd]
      · rw [List.lookup_cons, beq_eq_false_iff_ne.mpr hi] at hir
        exact hinv i r hir
  | none =>
    cases hm : s.mem.lookup ingredient_id with
    | some ing => exact absurd hd (hinv _ _ hm)
    | none =>
      have h1 : getitem web s ingredient_id
          = (web ingredient_id, ⟨(ingredient_id, web ingredient_id) :: s.mem,
              (ingredient_id, web ingredient_id) :: s.disk⟩, 1) := by
        simp [getitem, hd, hm]
      have h2 : getitem web ⟨(ingredient_id, web ingredient_id) :: s.mem,
          (ingredient_id, web ingredient_id) :: s.disk⟩ ingredient_id
          = (web ingredient_id, ⟨(ingredient_id, web ingredient_id) :: s.mem,
              (ingredient_id, web ingredient_id) :: s.disk⟩, 0) := by
        simp [getitem]
      refine ⟨by simp [h1, h2], by simp [h1, h2], by simp [h1], ?_⟩
      intro i r hir
      simp only [h1] at hir ⊢
      by_cases hi : i = ingredient_id
      · subst hi
        simp
      · rw [List.lookup_cons, beq_eq_false_iff_ne.mpr hi] at hir
        rw [List.lookup_cons, beq_eq_false_iff_ne.mpr hi]
        exact hinv i r hir

/-- C6 witness: the double-resolution statement applied at a fresh process
state (empty in-memory store, empty disk cache), where the invariant holds
vacuously. -/
theorem c6_resolve_twice_one_fetch_witness :
    (getitem resolve0 ⟨[], []⟩ "x").2.2
        + (getitem resolve0 (getitem resolve0 ⟨[], []⟩ "x").2.1 "x").2.2 ≤ 1 ∧
    (getitem resolve0 (getitem resolve0 ⟨[], []⟩ "x").2.1 "x").1
        = (getitem resolve0 ⟨[], []⟩ "x").1 ∧
    (getitem resolve0 ⟨[], []⟩ "x").2.1.disk.lookup "x" ≠ none ∧
    (∀ i r, (getitem resolve0 ⟨[], []⟩ "x").2.1.mem.lookup i = some r →
      (getitem resolve0 ⟨[], []⟩ "x").2.1.disk.lookup i ≠ none) :=
  c6_resolve_twice_one_fetch resolve0 ⟨[], []⟩ "x" (fun i r h => by simp at h)

/-- C5: `ReadyMix.ingredients` holds one {ingredient, amount, grams} triple per
listed ingredient reference — a permutation of the references mapped through
the entry builder — with grams = floor(amountMilligram / 1000), sorted
descending by grams; the sort is stable on ties: any two entries with equal
grams that appear as a sublist of the input appear as a sublist (same relative
order) of the output. -/
theorem c5_ingredients_sorted_stable (resolve : String → Ingredient)
    (refs : List IngredientRef) :
    List.Perm (buildIngredients resolve refs) (refs.map (entryOfRef resolve)) ∧
    (∀ r, (entryOfRef resolve r).grams = r.amountMilligram / 1000) ∧
    List.Pairwise gramsDescending (buildIngredients resolve refs) ∧
    (∀ a b, List.Sublist [a, b] (refs.map (entryOfRef resolve)) → a.grams = b.grams →
      List.Sublist [a, b] (buildIngredients resolve refs)) := by
  refine ⟨List.perm_insertionSort _ _, fun r => rfl, List.sorted_insertionSort _ _, ?_⟩
  intro a b hsub heq
  exact List.pair_sublist_insertionSort (le_of_eq heq.symm) hsub

/-- C5 witness: the sorted-stable statement applied at concrete references
whose gram values are [50, 50, 30]. -/
theorem c5_ingredients_sorted_stable_witness :
    List.Perm (buildIngredients resolve0 refs530) (refs530.map (entryOfRef resolve0)) ∧
    (∀ r, (entryOfRef resolve0 r).grams = r.amountMilligram / 1000) ∧
    List.Pairwise gramsDescending (buildIngredients resolve0 refs530) ∧
    (∀ a b, List.Sublist [a, b] (refs530.map (entryOfRef resolve0)) → a.grams = b.grams →
      List.Sublist [a, b] (buildIngredients resolve0 refs530)) :=
  c5_ingredients_sorted_stable resolve0 refs530

/-- C9: the offers attribute holds all given pricing records parsed, sorted
ascending by price (a sorted permutation of the parsed list), and single_offer
is the first offer in that sorted order whose display name holds the substring
"(weight)g", or none exactly when no offer's name holds it. -/
theorem c9_offers_sorted_single_offer (weight : Nat) (offer_dicts : List OfferDict)
    (offers : List Offer) (h : buildOffers offer_dicts = some offers) :
    (∃ parsed, offer_dicts.mapM offerFromDict = some parsed ∧ List.Perm offers parsed) ∧
    List.Pairwise priceAscending offers ∧
    singleOffer weight offers = offers.find? (nameHasWeight weight) ∧
    (singleOffer weight offers = none ↔ ∀ o ∈ offers, nameHasWeight weight o = false) := by
  obtain ⟨parsed, hp, rfl⟩ : ∃ parsed, offer_dicts.mapM offerFromDict = some parsed ∧
      offers = List.insertionSort priceAscending parsed := by
    unfold buildOffers at h
    cases hm : offer_dicts.mapM offerFromDict with
    | none => rw [hm] at h; simp at h
    | some parsed =>
      rw [hm] at h
      simp only [Option.map_some', Option.some.injEq] at h
      exact ⟨parsed, rfl, h.symm⟩
  refine ⟨⟨parsed, hp, List.perm_insertionSort _ _⟩, List.sorted_insertionSort _ _,
    List.filter_head? _ _, ?_⟩
  simp [singleOffer, List.filter_head?, List.find?_eq_none]

/-- C9 witness: the sorted-offers statement applied at a concrete pricing
record whose name holds "500g". -/
theorem c9_offers_sorted_single_offer_witness :
    ∃ offers, buildOffers [offerA] = some offers ∧
      ((∃ parsed, [offerA].mapM offerFromDict = some parsed ∧ List.Perm offers parsed) ∧
       List.Pairwise priceAscending offers ∧
       singleOffer 500 offers = offers.find? (nameHasWeight 500) ∧
       (singleOffer 500 offers = none ↔ ∀ o ∈ offers, nameHasWeight 500 o = false)) :=
  ⟨_, rfl, c9_offers_sorted_single_offer 500 [offerA] _ rfl⟩

/-- C8 counterexample: the claim says a fatal error leaves the stored
collection unchanged (no partially populated collection observable); but on
feeds where the first ready-mix item assembles and the second has no catalog
counterpart, the run raises (`StopIteration` from `next(filter(...))`) after
having appended the first ReadyMix to the class-level list, so the stored
collection went from empty to length 1. -/
theorem c8_partial_collection_observable :
    (getAllReadyMixes resolve0 feedsOrphan []).2 = false ∧
    (getAllReadyMixes resolve0 feedsOrphan []).1.length = 1 := ⟨rfl, rfl⟩

/-- C8 (amended): after a run over any item list, the prior content of the
stored collection is always a prefix of the new content (appends are never
rolled back: a failing run can leave a partially populated collection); an
error-free run fully populates the collection, appending exactly the assembly
of every item, and a run whose assembly fails reports the raised error to the
caller (no handler intercepts it). -/
theorem c8_errors_surface_appends_persist (resolve : String → Ingredient) (feeds : Feeds)
    (items : List SearchDict) (acc : List ReadyMix) :
    List.IsPrefix acc (runAssembly resolve feeds items acc).1 ∧
    (∀ l, assembleSeq resolve feeds items = some l →
      runAssembly resolve feeds items acc = (acc ++ l, true)) ∧
    (assembleSeq resolve feeds items = none →
      (runAssembly resolve feeds items acc).2 = false) := by
  induction items generalizing acc with
  | nil =>
    refine ⟨List.prefix_refl acc, ?_, ?_⟩
    · intro l hl
      simp only [assembleSeq, Option.some.injEq] at hl
      simp [runAssembly, ← hl]
    · intro hn
      simp [assembleSeq] at hn
  | cons sr rest ih =>
    cases hf : feeds.products.find? (fun p => p.id == sr.id) with
    | none =>
      refine ⟨?_, ?_, ?_⟩
      · simp [runAssembly, hf]
      · intro l hl
        simp [assembleSeq, hf] at hl
      · intro _
        simp [runAssembly, hf]
    | some pd =>
      cases hr : readyMixInit resolve pd sr
          (feeds.offers.filter (fun od => od.productArticleNumber == pd.articleNumber)) with
      | none =>
        refine ⟨?_, ?_, ?_⟩
        · simp [runAssembly, hf, hr]
        · intro l hl
          simp [assembleSeq, hf, hr] at hl
        · intro _
          simp [runAssembly, hf, hr]
      | some rm =>
        have hrun : runAssembly resolve feeds (sr :: rest) acc
            = runAssembly resolve feeds rest (acc ++ [rm]) := by
          simp [runAssembly, hf, hr]
        have hseq : assembleSeq resolve feeds (sr :: rest)
            = (assembleSeq resolve feeds rest).map (fun rms => rm :: rms) := by
          cases hs : assembleSeq resolve feeds rest <;> simp [assembleSeq, hf, hr, hs]
        refine ⟨?_, ?_, ?_⟩
        · rw [hrun]
          exact List.IsPrefix.trans (List.prefix_append acc [rm]) (ih (acc ++ [rm])).1
        · intro l hl
          rw [hseq] at hl
          cases hs : assembleSeq resolve feeds rest with
          | none => rw [hs] at hl; simp at hl
          | some rms =>
            rw [hs] at hl
            simp only [Option.map_some', Option.some.injEq] at hl
            rw [hrun, (ih (acc ++ [rm])).2.1 rms hs, ← hl]
            simp
        · intro hn
          rw [hseq] at hn
          cases hs : assembleSeq resolve feeds rest with
          | none => rw [hrun]; exact (ih (acc ++ [rm])).2.2 hs
          | some rms => rw [hs] at hn; simp at hn

/-- C8 witness: the amended statement applied at the orphan feeds' filtered
search items starting from the empty collection. -/
theorem c8_errors_surface_appends_persist_witness :
    List.IsPrefix [] (runAssembly resolve0 feedsOrphan [searchA, searchOrphan] []).1 ∧
    (∀ l, assembleSeq resolve0 feedsOrphan [searchA, searchOrphan] = some l →
      runAssembly resolve0 feedsOrphan [searchA, searchOrphan] [] = ([] ++ l, true)) ∧
    (assembleSeq resolve0 feedsOrphan [searchA, searchOrphan] = none →
      (runAssembly resolve0 feedsOrphan [searchA, searchOrphan] []).2 = false) :=
  c8_errors_surface_appends_persist resolve0 feedsOrphan [searchA, searchOrphan] []

/-- Rebuilding the flattened groups returns the original list. -/
theorem groupby_flatten {α κ : Type} [DecidableEq κ] (key : α → κ) (l : List α) :
    ((groupby key l).map Prod.snd).flatten = l := by
  induction l with
  | nil => rfl
  | cons x xs ih =>
    cases h : groupby key xs with
    | nil =>
      rw [h] at ih
      simp only [List.map_nil, List.flatten_nil] at ih
      simp [groupby, h, ← ih]
    | cons p rest =>
      obtain ⟨k, g⟩ := p
      rw [h] at ih
      simp only [List.map_cons, List.flatten_cons] at ih
      by_cases hk : key x = k <;> simp [groupby, h, hk, ih]

/-- Each group is nonempty and all its elements carry the group key. -/
theorem mem_groupby_key_ne_nil {α κ : Type} [DecidableEq κ] (key : α → κ) :
    ∀ (l : List α) (k : κ) (g : List α), (k, g) ∈ groupby key l →
      g ≠ [] ∧ ∀ a ∈ g, key a = k := by
  intro l
  induction l with
  | nil =>
    intro k g hm
    simp [groupby] at hm
  | cons x xs ih =>
    intro k g hm
    cases h : groupby key xs with
    | nil =>
      simp only [groupby, h, List.mem_singleton, Prod.mk.injEq] at hm
      obtain ⟨rfl, rfl⟩ := hm
      exact ⟨by simp, by simp⟩
    | cons p rest =>
      obtain ⟨k', g'⟩ := p
      by_cases hk : key x = k'
      · simp only [groupby, h, if_pos hk] at hm
        rcases List.mem_cons.mp hm with heq | hmrest
        · simp only [Prod.mk.injEq] at heq
          obtain ⟨hk1, hg1⟩ := heq
          subst hg1
          have ih' := ih k' g' (by rw [h]; exact List.mem_cons_self _ _)
          refine ⟨by simp, ?_⟩
          intro a ha
          rw [hk1]
          rcases List.mem_cons.mp ha with rfl | ha'
          · exact hk
          · exact ih'.2 a ha'
        · exact ih k g (by rw [h]; exact List.mem_cons_of_mem _ hmrest)
      · simp only [groupby, h, if_neg hk] at hm
        rcases List.mem_cons.mp hm with heq | hmrest
        · simp only [Prod.mk.injEq] at heq
          obtain ⟨hk1, hg1⟩ := heq
          subst hg1
          refine ⟨by simp, ?_⟩
          intro a ha
          rw [hk1]
          rcases List.mem_cons.mp ha with rfl | ha'
          · rfl
          · simp at ha'
        · exact ih k g (by rw [h]; exact hmrest)

/-- Group members are members of the grouped list. -/
theorem mem_of_mem_groupby {α κ : Type} [DecidableEq κ] (key : α → κ) (l : List α)
    (k : κ) (g : List α) (hm : (k, g) ∈ groupby key l) : ∀ a ∈ g, a ∈ l := by
  intro a ha
  rw [← groupby_flatten key l]
  exact List.mem_flatten.mpr ⟨g, List.mem_map_of_mem Prod.snd hm, ha⟩

/-- Every member of the grouped list lies in the group labelled by its key. -/
theorem exists_mem_groupby_of_mem {α κ : Type} [DecidableEq κ] (key : α → κ)
    (l : List α) (a : α) (ha : a ∈ l) :
    ∃ k g, (k, g) ∈ groupby key l ∧ a ∈ g ∧ key a = k := by
  rw [← groupby_flatten key l] at ha
  obtain ⟨gl, hgl, hag⟩ := List.mem_flatten.mp ha
  obtain ⟨⟨k, g⟩, hkg, rfl⟩ := List.mem_map.mp hgl
  exact ⟨k, g, hkg, hag, (mem_groupby_key_ne_nil key l k g hkg).2 a hag⟩

/-- Grouping a nonempty list starts with a group labelled by the head's key. -/
theorem groupby_cons_eq {α κ : Type} [DecidableEq κ] (key : α → κ) (x : α) (xs : List α) :
    ∃ g rest, groupby key (x :: xs) = (key x, g) :: rest := by
  cases h : groupby key xs with
  | nil => exact ⟨[x], [], by simp [groupby, h]⟩
  | cons p rest =>
    obtain ⟨k, g⟩ := p
    by_cases hk : key x = k
    · refine ⟨x :: g, rest, ?_⟩
      simp only [groupby, h, if_pos hk]
      rw [hk]
    · exact ⟨[x], (k, g) :: rest, by simp only [groupby, h, if_neg hk]⟩

/-- On a list sorted by key, the first group's key bounds every key below. -/
theorem head_key_le_of_sorted {α κ : Type} [DecidableEq κ] [LinearOrder κ] (key : α → κ)
    (xs : List α) (hxs : xs.Pairwise (fun a b => key a ≤ key b)) (k : κ) (g : List α)
    (rest : List (κ × List α)) (h : groupby key xs = (k, g) :: rest) :
    ∀ a ∈ xs, k ≤ key a := by
  intro a ha
  cases xs with
  | nil => simp [groupby] at h
  | cons z zs =>
    obtain ⟨g0, rest0, h0⟩ := groupby_cons_eq key z zs
    rw [h0] at h
    injection h with h1 h2
    have hk : k = key z := (congrArg Prod.fst h1).symm
    rcases List.mem_cons.mp ha with rfl | hazs
    · exact le_of_eq hk
    · exact hk ▸ (List.pairwise_cons.mp hxs).1 a hazs

/-- On a list sorted by key, the group keys are strictly increasing. -/
theorem groupby_keys_sorted {α κ : Type} [DecidableEq κ] [LinearOrder κ] (key : α → κ) :
    ∀ (l : List α), l.Pairwise (fun a b => key a ≤ key b) →
      ((groupby key l).map Prod.fst).Pairwise (fun a b => a < b) := by
  intro l
  induction l with
  | nil =>
    intro _
    simp [groupby]
  | cons x xs ih =>
    intro hl
    obtain ⟨hx, hxs⟩ := List.pairwise_cons.mp hl
    specialize ih hxs
    cases h : groupby key xs with
    | nil => simp [groupby, h]
    | cons p rest =>
      obtain ⟨k, g⟩ := p
      rw [h] at ih
      simp only [List.map_cons] at ih
      have hmem : (k, g) ∈ groupby key xs := by rw [h]; exact List.mem_cons_self _ _
      have hxk : key x ≤ k := by
        obtain ⟨hne, hkey⟩ := mem_groupby_key_ne_nil key xs k g hmem
        obtain ⟨a, ha⟩ := List.exists_mem_of_ne_nil g hne
        exact (hkey a ha) ▸ hx a (mem_of_mem_groupby key xs k g hmem a ha)
      by_cases hk : key x = k
      · simp only [groupby, h, if_pos hk, List.map_cons]
        exact ih
      · simp only [groupby, h, if_neg hk, List.map_cons]
        refine List.pairwise_cons.mpr ⟨?_, ih⟩
        intro b hb
        have hxklt : key x < k := lt_of_le_of_ne hxk hk
        rcases List.mem_cons.mp hb with rfl | hbrest
        · exact hxklt
        · exact hxklt.trans ((List.pairwise_cons.mp ih).1 b hbrest)

/-- On a list sorted by key, each group holds exactly the elements with its
key — grouping is by key equality, independent of interleaving. -/
theorem groupby_eq_filter_of_sorted {α κ : Type} [DecidableEq κ] [LinearOrder κ]
    (key : α → κ) :
    ∀ (l : List α), l.Pairwise (fun a b => key a ≤ key b) →
      ∀ k g, (k, g) ∈ groupby key l → g = l.filter (fun a => key a = k) := by
  intro l
  induction l with
  | nil =>
    intro _ k g hm
    simp [groupby] at hm
  | cons x xs ih =>
    intro hl k g hm
    obtain ⟨hx, hxs⟩ := List.pairwise_cons.mp hl
    cases h : groupby key xs with
    | nil =>
      have hxsnil : xs = [] := by
        have hf := groupby_flatten key xs
        rw [h] at hf
        simpa using hf.symm
      subst hxsnil
      simp only [groupby, List.mem_singleton, Prod.mk.injEq] at hm
      obtain ⟨rfl, rfl⟩ := hm
      simp [List.filter]
    | cons p rest =>
      obtain ⟨k', g'⟩ := p
      have hmem' : (k', g') ∈ groupby key xs := by rw [h]; exact List.mem_cons_self _ _
      have hk'le : ∀ a ∈ xs, k' ≤ key a := head_key_le_of_sorted key xs hxs k' g' rest h
      have hxk'le : key x ≤ k' := by
        obtain ⟨hne, hkey⟩ := mem_groupby_key_ne_nil key xs k' g' hmem'
        obtain ⟨a, ha⟩ := List.exists_mem_of_ne_nil g' hne
        exact (hkey a ha) ▸ hx a (mem_of_mem_groupby key xs k' g' hmem' a ha)
      have hkeys := groupby_keys_sorted key xs hxs
      rw [h] at hkeys
      simp only [List.map_cons] at hkeys
      have hk'lt : ∀ b ∈ rest.map Prod.fst, k' < b := (List.pairwise_cons.mp hkeys).1
      by_cases hk : key x = k'
      · simp only [groupby, h, if_pos hk] at hm
        rcases List.mem_cons.mp hm with heq | hmrest
        · simp only [Prod.mk.injEq] at heq
          obtain ⟨hk1, hg1⟩ := heq
          subst hg1
          rw [List.filter_cons, if_pos (by simp only [decide_eq_true_eq, hk1]; exact hk)]
          rw [hk1, ih hxs k' g' hmem']
        · have hkmem : (k, g) ∈ groupby key xs := by
            rw [h]; exact List.mem_cons_of_mem _ hmrest
          have hkval : k' < k := hk'lt k (List.mem_map_of_mem Prod.fst hmrest)
          rw [List.filter_cons,
            if_neg (by simp only [decide_eq_true_eq, hk]; exact ne_of_lt hkval)]
          exact ih hxs k g hkmem
      · simp only [groupby, h, if_neg hk] at hm
        rcases List.mem_cons.mp hm with heq | hmtail
        · simp only [Prod.mk.injEq] at heq
          obtain ⟨hk1, hg1⟩ := heq
          subst hg1
          rw [hk1, List.filter_cons, if_pos (by simp)]
          have hnone : xs.filter (fun a => key a = key x) = [] := by
            rw [List.filter_eq_nil_iff]
            intro a ha hkey
            exact hk (le_antisymm hxk'le ((by simpa using hkey : key a = key x) ▸ hk'le a ha))
          rw [hnone]
        · have hkmem : (k, g) ∈ groupby key xs := by rw [h]; exact hmtail
          have hkge : k' ≤ k := by
            rcases List.mem_cons.mp hmtail with heq | hrest
            · exact le_of_eq (congrArg Prod.fst heq).symm
            · exact le_of_lt (hk'lt k (List.mem_map_of_mem Prod.fst hrest))
          have hxnek : ¬ key x = k := fun hxe => hk (le_antisymm hxk'le (hxe ▸ hkge))
          rw [List.filter_cons, if_neg (by simpa using hxnek)]
          exact ih hxs k g hkmem

/-- The total grams of a list only depend on its multiset of entries. -/
theorem gramsTotal_perm {l₁ l₂ : List IngredientEntry} (h : List.Perm l₁ l₂) :
    gramsTotal l₁ = gramsTotal l₂ := by
  unfold gramsTotal
  exact (h.map (fun i => i.grams)).sum_eq

/-- With a nonzero grams total, every division in the distribution
comprehension succeeds and the dict is the group-to-share map. -/
theorem distribution_eq_of_total_ne_zero (ings : List IngredientEntry)
    (h : (gramsTotal ings : ℚ) ≠ 0) :
    ingredientTypeDistribution ings
      = some ((groupby entryType (List.insertionSort typeAscending ings)).map
          (fun g => (g.1, (gramsTotal g.2 : ℚ) / (gramsTotal ings : ℚ)))) := by
  unfold ingredientTypeDistribution
  generalize groupby entryType (List.insertionSort typeAscending ings) = gs
  induction gs with
  | nil => rfl
  | cons g gs ih =>
    have hg : (pyDiv (gramsTotal g.2 : ℚ) (gramsTotal ings : ℚ)).map
        (fun q => (g.1, q))
        = some (g.1, (gramsTotal g.2 : ℚ) / (gramsTotal ings : ℚ)) := by
      simp [pyDiv, h]
    simp only [optionMapList, hg, ih, Option.some_bind, List.map_cons]
    rfl

/-- C4: for a ReadyMix whose ingredients sum to G > 0 total grams, the
distribution is defined (no fault), its keys are exactly the ingredient
categories present (grouped by category equality after a sort by category —
independent of insertion order — each category exactly once), each category
maps to its share of total grams (that category's grams divided by G), and
the values sum to exactly 1, hence to 1 within any epsilon. -/
theorem c4_distribution_shares_sum_one (ings : List IngredientEntry)
    (hG : 0 < gramsTotal ings) :
    ∃ dist, ingredientTypeDistribution ings = some dist ∧
      (dist.map Prod.snd).sum = 1 ∧
      (dist.map Prod.fst).Nodup ∧
      (∀ c, c ∈ dist.map Prod.fst ↔ c ∈ ings.map entryType) ∧
      (∀ c q, (c, q) ∈ dist →
        q = (gramsTotal (ings.filter (fun i => entryType i = c)) : ℚ)
            / (gramsTotal ings : ℚ)) := by
  have hne : gramsTotal ings ≠ 0 := Nat.pos_iff_ne_zero.mp hG
  have hQ : (gramsTotal ings : ℚ) ≠ 0 := Nat.cast_ne_zero.mpr hne
  have hperm : List.Perm (List.insertionSort typeAscending ings) ings :=
    List.perm_insertionSort _ _
  have hsorted : (List.insertionSort typeAscending ings).Pairwise
      (fun a b => entryType a ≤ entryType b) :=
    List.sorted_insertionSort typeAscending ings
  refine ⟨_, distribution_eq_of_total_ne_zero ings hQ, ?_, ?_, ?_, ?_⟩
  · -- values sum to 1
    rw [List.map_map]
    have hrw : (Prod.snd ∘ fun g : String × List IngredientEntry =>
        (g.1, (gramsTotal g.2 : ℚ) / (gramsTotal ings : ℚ)))
        = fun g : String × List IngredientEntry =>
            (gramsTotal g.2 : ℚ) * ((gramsTotal ings : ℚ))⁻¹ := by
      funext g
      simp [div_eq_mul_inv]
    rw [hrw, List.sum_map_mul_right, ← div_eq_mul_inv]
    rw [show ((groupby entryType (List.insertionSort typeAscending ings)).map
        fun g => (gramsTotal g.2 : ℚ)) = ((groupby entryType
          (List.insertionSort typeAscending ings)).map Prod.snd).map
            (fun l => (gramsTotal l : ℚ)) by rw [List.map_map]; rfl]
    have htot : (((groupby entryType (List.insertionSort typeAscending ings)).map
        Prod.snd).map (fun l => (gramsTotal l : ℚ))).sum = (gramsTotal ings : ℚ) := by
      rw [show (fun l => (gramsTotal l : ℚ))
          = (Nat.cast : Nat → ℚ) ∘ gramsTotal from rfl, ← List.map_map,
        ← Nat.cast_list_sum]
      norm_cast
      rw [show ((groupby entryType (List.insertionSort typeAscending ings)).map
          Prod.snd).map gramsTotal = ((groupby entryType
            (List.insertionSort typeAscending ings)).map Prod.snd).map
              (List.sum ∘ List.map fun i => i.grams) from rfl]
      rw [← List.map_map, ← List.sum_flatten, ← List.map_flatten, groupby_flatten]
      exact (gramsTotal_perm hperm).symm ▸ rfl
    rw [htot, div_self hQ]
  · -- keys are nodup
    rw [List.map_map]
    rw [show (Prod.fst ∘ fun g : String × List IngredientEntry =>
        (g.1, (gramsTotal g.2 : ℚ) / (gramsTotal ings : ℚ))) = Prod.fst from rfl]
    exact (groupby_keys_sorted entryType _ hsorted).imp (fun hab => ne_of_lt hab)
  · -- keys are exactly the categories present
    intro c
    rw [List.map_map]
    rw [show (Prod.fst ∘ fun g : String × List IngredientEntry =>
        (g.1, (gramsTotal g.2 : ℚ) / (gramsTotal ings : ℚ))) = Prod.fst from rfl]
    constructor
    · intro hc
      obtain ⟨⟨k, g⟩, hkg, rfl⟩ := List.mem_map.mp hc
      obtain ⟨hne', hkey⟩ := mem_groupby_key_ne_nil entryType _ _ _ hkg
      obtain ⟨a, ha⟩ := List.exists_mem_of_ne_nil g hne'
      have hal : a ∈ ings := hperm.mem_iff.mp
        (mem_of_mem_groupby entryType _ _ _ hkg a ha)
      exact (hkey a ha) ▸ List.mem_map_of_mem entryType hal
    · intro hc
      obtain ⟨a, hal, rfl⟩ := List.mem_map.mp hc
      obtain ⟨k, g, hkg, hag, hka⟩ := exists_mem_groupby_of_mem entryType
        (List.insertionSort typeAscending ings) a (hperm.mem_iff.mpr hal)
      exact hka ▸ List.mem_map_of_mem Prod.fst hkg
  · -- each key maps to its share
    intro c q hcq
    obtain ⟨⟨k, g⟩, hkg, heq⟩ := List.mem_map.mp hcq
    simp only [Prod.mk.injEq] at heq
    obtain ⟨rfl, rfl⟩ := heq
    have hg : g = (List.insertionSort typeAscending ings).filter
        (fun a => entryType a = k) :=
      groupby_eq_filter_of_sorted entryType _ hsorted k g hkg
    rw [hg, gramsTotal_perm (hperm.filter (fun a => entryType a = k))]

/-- C4 witness: the distribution statement applied at concrete ingredients
with two categories and 80 total grams. -/
theorem c4_distribution_shares_sum_one_witness :
    ∃ dist, ingredientTypeDistribution (buildIngredients resolveTwoTypes refsTwoTypes)
        = some dist ∧
      (dist.map Prod.snd).sum = 1 ∧
      (dist.map Prod.fst).Nodup ∧
      (∀ c, c ∈ dist.map Prod.fst ↔
        c ∈ (buildIngredients resolveTwoTypes refsTwoTypes).map entryType) ∧
      (∀ c q, (c, q) ∈ dist →
        q = (gramsTotal ((buildIngredients resolveTwoTypes refsTwoTypes).filter
              (fun i => entryType i = c)) : ℚ)
            / (gramsTotal (buildIngredients resolveTwoTypes refsTwoTypes) : ℚ)) :=
  c4_distribution_shares_sum_one (buildIngredients resolveTwoTypes refsTwoTypes) (by decide)

end Mymuesli
